import Mathlib

/-!
Verification of the fast-neutron vertex generator fragment of rat-pac
(`src/gen/VertexGen_FastNeutron.hh`) and the BONSAI fit data holder
(`src/ds/BonsaiFit.hh`), as a shallow embedding in Lean 4.

Machine doubles are modelled by `Float` where only store/load behaviour
matters (the BonsaiFit attribute holder) and by `ℚ` where arithmetic
identities are proved (the spectrum table builder and sampler), so that
exact statements about normalisation and monotonicity are expressible.
Only the class declarations are present in the repository fragment; the
member-function bodies of `VertexGen_FastNeutron` live in a `.cc` file
that is not part of the fragment, so those operations are modelled from
the specification, as marked in each doc comment.
-/

namespace RAT

namespace DS

/-- The ROOT `TVector3` 3-vector of doubles, as used by `BonsaiFit`. -/
structure TVector3 where
  x : Float
  y : Float
  z : Float
deriving Repr

/-- `DS::BonsaiFit` from `src/ds/BonsaiFit.hh`: time, direction and the two
log-likelihood attributes fitted by BONSAI (position attributes are
inherited from `PosFit`, outside this fragment). -/
structure BonsaiFit where
  time : Float
  dir : TVector3
  LogLike : Float
  LogLike0 : Float
deriving Repr

/-- `GetTime` from `src/ds/BonsaiFit.hh` line 23. -/
def BonsaiFit.GetTime (b : BonsaiFit) : Float := b.time

/-- `SetTime` from `src/ds/BonsaiFit.hh` line 24. -/
def BonsaiFit.SetTime (b : BonsaiFit) (t : Float) : BonsaiFit := { b with time := t }

/-- `GetDirection` from `src/ds/BonsaiFit.hh` line 27. -/
def BonsaiFit.GetDirection (b : BonsaiFit) : TVector3 := b.dir

/-- `SetDirection` from `src/ds/BonsaiFit.hh` line 28. -/
def BonsaiFit.SetDirection (b : BonsaiFit) (d : TVector3) : BonsaiFit := { b with dir := d }

/-- `GetLogLike` from `src/ds/BonsaiFit.hh` line 30. -/
def BonsaiFit.GetLogLike (b : BonsaiFit) : Float := b.LogLike

/-- `SetLogLike` from `src/ds/BonsaiFit.hh` line 31. -/
def BonsaiFit.SetLogLike (b : BonsaiFit) (v : Float) : BonsaiFit := { b with LogLike := v }

/-- `GetLogLike0` from `src/ds/BonsaiFit.hh` line 33. -/
def BonsaiFit.GetLogLike0 (b : BonsaiFit) : Float := b.LogLike0

/-- `SetLogLike0` from `src/ds/BonsaiFit.hh` line 34. -/
def BonsaiFit.SetLogLike0 (b : BonsaiFit) (v : Float) : BonsaiFit := { b with LogLike0 := v }

end DS

/-! ## Spectrum table builder and sampler

The bodies of `VertexGen_FastNeutron`'s member functions are not in the
fragment; the builder, sampler and state accessor below are modelled from
the specification (sections 4.1, 4.2, 4.4). -/

/-- One entry of the base differential flux table supplied by the external
database lookup: an energy lower bound and the flux density there. -/
structure SpecBin where
  energy : ℚ
  flux : ℚ
deriving Repr, DecidableEq

/-- Errors of the builder, from the spec's error taxonomy (section 7). -/
inductive BuildError where
  | InvalidParameterError
  | EmptySpectrumError
deriving Repr, DecidableEq

/-- A built spectrum table: ordered (energy lower bound, cumulative
probability) pairs (spec section 3, SpectrumTable). -/
structure SpectrumTable where
  entries : List (ℚ × ℚ)
deriving Repr, DecidableEq

/-- Modelled from the spec: the depth-dependent Mei-Hime attenuation applied
to the base flux shape ("apply a depth-dependent attenuation factor", spec
4.1); the factor function itself is an external parameter of the model. -/
def attenuate (a : ℚ) (bins : List SpecBin) : List SpecBin :=
  bins.map (fun b => ⟨b.energy, a * b.flux⟩)

/-- Modelled from the spec: truncation of all density below the threshold
(spec 4.1, "truncate/zero out all density below threshold"). -/
def truncateBelow (threshold : ℚ) (bins : List SpecBin) : List SpecBin :=
  bins.filter (fun b => threshold ≤ b.energy)

/-- Modelled from the spec: the integrated probability mass of each
discretized energy bin, density times bin width; the last tabulated bin has
no upper neighbour and carries zero width. -/
def binMasses : List SpecBin → List (ℚ × ℚ)
  | [] => []
  | [b] => [(b.energy, 0)]
  | b :: b2 :: rest => (b.energy, b.flux * (b2.energy - b.energy)) :: binMasses (b2 :: rest)

/-- Modelled from the spec: running cumulative sum of the bin masses
(spec 4.1, "integrate the truncated, attenuated density into a cumulative
sum over discretized energy bins"). -/
def cumList : ℚ → List (ℚ × ℚ) → List (ℚ × ℚ)
  | _, [] => []
  | acc, (e, m) :: rest => (e, acc + m) :: cumList (acc + m) rest

/-- The largest energy appearing in a flux table (the "maximum tabulated
energy" of the spec). -/
def maxEnergy (bins : List SpecBin) : ℚ :=
  (bins.map SpecBin.energy).foldr max 0

/-- The attenuated, threshold-truncated bin masses a build integrates. -/
def buildMasses (depth threshold : ℚ) (atten : ℚ → ℚ) (base : List SpecBin) :
    List (ℚ × ℚ) :=
  binMasses (truncateBelow threshold (attenuate (atten depth) base))

/-- The total density of the attenuated, threshold-truncated spectrum. -/
def buildTotal (depth threshold : ℚ) (atten : ℚ → ℚ) (base : List SpecBin) : ℚ :=
  ((buildMasses depth threshold atten base).map Prod.snd).sum

/-- Modelled from the spec: `build(depth, threshold, spectrumIdentifier)`
(spec 4.1).  The external lookup keyed by the spectrum identifier is
represented by the base table `base` and the attenuation model `atten`.
Rejects negative parameters with `InvalidParameterError`, attenuates and
truncates the base shape, integrates it, and fails with
`EmptySpectrumError` when the total density is zero; otherwise normalizes
the cumulative sums by the total. -/
def build (depth threshold : ℚ) (atten : ℚ → ℚ) (base : List SpecBin) :
    Except BuildError SpectrumTable :=
  if depth < 0 ∨ threshold < 0 then
    .error .InvalidParameterError
  else if buildTotal depth threshold atten base = 0 then
    .error .EmptySpectrumError
  else
    .ok ⟨(cumList 0 (buildMasses depth threshold atten base)).map
          (fun p => (p.1, p.2 / buildTotal depth threshold atten base))⟩

/-- Modelled from the spec: the inverse-CDF search of `sample` (spec 4.2),
returning the first bin whose cumulative probability exceeds the draw,
together with its index. -/
def findBin : List (ℚ × ℚ) → ℚ → ℕ → Option (ℚ × ℕ)
  | [], _, _ => none
  | (e, c) :: rest, u, i => if u < c then some (e, i) else findBin rest u (i + 1)

/-- Modelled from the spec: `sample(table, uniformDraw) -> (energy, binIndex)`
(spec 4.2), by inverse-transform search over the cumulative table. -/
def sample (t : SpectrumTable) (u : ℚ) : Option (ℚ × ℕ) :=
  findBin t.entries u 0

/-! ## Generator state and the state accessor -/

/-- Errors of the state accessor, from the spec's error taxonomy. -/
inductive StateError where
  | MalformedStateError
  | UnknownParticleError
deriving Repr, DecidableEq

/-- `DDEFAULT` from `src/gen/VertexGen_FastNeutron.hh` line 69. -/
def DDEFAULT : ℚ := 400

/-- `EDEFAULT` from `src/gen/VertexGen_FastNeutron.hh` line 70. -/
def EDEFAULT : ℚ := 10

/-- The observable configuration of a `VertexGen_FastNeutron` instance:
the `_particle` and `_FastNeutron` name fields and the `valueD`, `valueE`
doubles of the header, plus the current spectrum table (`none` when stale
or never built), per spec section 3 (GeneratorConfig). -/
structure GenState where
  particle : List Char
  specName : List Char
  valueD : ℚ
  valueE : ℚ
  table : Option SpectrumTable
deriving Repr, DecidableEq

/-- Modelled from the spec: the freshly constructed generator, with the
default depth 400 and threshold 10 and no table built yet. -/
def initGen : GenState :=
  { particle := [], specName := [], valueD := DDEFAULT, valueE := EDEFAULT, table := none }

/-- `SetDepth` from `src/gen/VertexGen_FastNeutron.hh` line 54; the body is
modelled from the spec: stores the depth and marks the table stale. -/
def SetDepth (st : GenState) (a : ℚ) : GenState :=
  { st with valueD := a, table := none }

/-- `SetEnThreshold` from `src/gen/VertexGen_FastNeutron.hh` line 55; the
body is modelled from the spec: stores the threshold and marks the table
stale. -/
def SetEnThreshold (st : GenState) (e : ℚ) : GenState :=
  { st with valueE := e, table := none }

/-- Calling `SetDepth` with no argument, which the header defaults to
`DDEFAULT`. -/
def SetDepthDefault (st : GenState) : GenState := SetDepth st DDEFAULT

/-- Calling `SetEnThreshold` with no argument, which the header defaults to
`EDEFAULT`. -/
def SetEnThresholdDefault (st : GenState) : GenState := SetEnThreshold st EDEFAULT

/-- `GetDepth` from `src/gen/VertexGen_FastNeutron.hh` line 57:
`{return valueD;}`. -/
def GetDepth (st : GenState) : ℚ := st.valueD

/-- `GetEnThreshold` from `src/gen/VertexGen_FastNeutron.hh` line 58:
`{return valueE;}`. -/
def GetEnThreshold (st : GenState) : ℚ := st.valueE

/-- A call of `GetDepth` as a state transformer: the value returned together
with the state the generator is left in (the inline body reads `valueD` and
touches nothing). -/
def getDepthCall (st : GenState) : ℚ × GenState := (st.valueD, st)

/-- A call of `GetEnThreshold` as a state transformer. -/
def getEnThresholdCall (st : GenState) : ℚ × GenState := (st.valueE, st)

/-- Whitespace as used to separate tokens of the state string. -/
def isWS (c : Char) : Bool := c = ' ' || c = '\t' || c = '\n'

/-- Tokenizer worker: accumulates the current token in reverse in `acc`. -/
def splitWSAux : List Char → List Char → List (List Char)
  | [], acc => if acc = [] then [] else [acc.reverse]
  | c :: rest, acc =>
    if isWS c then
      if acc = [] then splitWSAux rest [] else acc.reverse :: splitWSAux rest []
    else
      splitWSAux rest (c :: acc)

/-- Modelled from the spec: splitting the state string into its
whitespace-separated tokens (spec 4.4, "a single string of two
whitespace-separated tokens"). -/
def splitWS (cs : List Char) : List (List Char) := splitWSAux cs []

/-- Modelled from the spec: `SetState` (header line 48, "Format: pname
specname").  `known` is the external particle-species lookup.  On success
the particle and spectrum names are stored and the table is marked stale;
a token count other than two is `MalformedStateError`, an unknown particle
`UnknownParticleError`; on failure the configuration is returned
unchanged. -/
def SetState (known : List Char → Bool) (st : GenState) (s : List Char) :
    GenState × Option StateError :=
  match splitWS s with
  | [p, n] =>
    if known p then
      ({ st with particle := p, specName := n, table := none }, none)
    else
      (st, some .UnknownParticleError)
  | _ => (st, some .MalformedStateError)

/-- `GetState` (header line 50); the body is modelled from the spec:
serializes `particleName specName` back into the two-token format. -/
def GetState (st : GenState) : List Char :=
  st.particle ++ ' ' :: st.specName

/-! ## Vertex synthesizer -/

/-- A 3-vector of rationals standing for `G4ThreeVector`. -/
structure Vec3 where
  x : ℚ
  y : ℚ
  z : ℚ
deriving Repr, DecidableEq

/-- The constant average muon direction (0,0,-1) used as the angular
reference frame (header comment and spec section 3, ReferenceDirection). -/
def referenceDirection : Vec3 := ⟨0, 0, -1⟩

/-- A generated primary vertex: position, time and momentum
(spec section 3, Vertex). -/
structure Vertex where
  pos : Vec3
  time : ℚ
  momentum : Vec3
deriving Repr, DecidableEq

/-- Modelled from the spec: `synthesize(sampledEnergy, referenceDirection,
positionOffset, timeOffset)` (spec 4.3).  The conversion of energy and
direction to a momentum vector through the particle's rest mass is the
external relativistic kinematics, passed in as `mom`; position and time are
the caller-supplied offsets verbatim. -/
def synthesize (mom : ℚ → Vec3 → Vec3) (energy : ℚ) (d : Vec3) (dx : Vec3) (dt : ℚ) :
    Vertex :=
  { pos := dx, time := dt, momentum := mom energy d }

/-- Modelled from the spec: the per-event body of `GeneratePrimaryVertex`
(header lines 42-44): sample an energy from the table with the uniform draw
`u` and synthesize the vertex at offsets `dx`, `dt` relative to the
constant reference direction. -/
def generatePrimaryVertex (mom : ℚ → Vec3 → Vec3) (t : SpectrumTable) (u : ℚ)
    (dx : Vec3) (dt : ℚ) : Option Vertex :=
  match sample t u with
  | some (e, _) => some (synthesize mom e referenceDirection dx dt)
  | none => none

/-- A run of repeated samples against a fixed table, one per element of the
stream of uniform draws (the seeded uniform source of the spec's
determinism scenario). -/
def runSamples (t : SpectrumTable) (draws : List ℚ) : List (Option (ℚ × ℕ)) :=
  draws.map (sample t)

/-- The generator state reached by `setState("positron fastneutron")`, used
as the concrete instance of the round-trip property. -/
def positronGen : GenState :=
  { initGen with particle := "positron".toList, specName := "fastneutron".toList,
                 table := none }

/-- A small concrete base flux table used to instantiate the builder
properties: unit flux on energy bins 10, 20, 30. -/
def baseTable : List SpecBin := [⟨10, 1⟩, ⟨20, 1⟩, ⟨30, 1⟩]

/-- A trivial attenuation model (factor one at every depth), used for the
concrete instances. -/
def attenOne : ℚ → ℚ := fun _ => 1

/-- The spectrum table produced by `build 400 10 attenOne baseTable`. -/
def tableA : SpectrumTable := ⟨[(10, 1/2), (20, 1), (30, 1)]⟩

end RAT

/-! ## Tokenizer lemmas -/

namespace RAT

lemma splitWSAux_token_sound (cs : List Char) :
    ∀ acc, (∀ c ∈ acc, isWS c = false) →
      ∀ t ∈ splitWSAux cs acc, t ≠ [] ∧ ∀ c ∈ t, isWS c = false := by
  induction cs with
  | nil =>
    intro acc hacc t ht
    simp only [splitWSAux] at ht
    by_cases h : acc = []
    · simp [h] at ht
    · simp only [if_neg h, List.mem_singleton] at ht
      subst ht
      refine ⟨by simpa using h, ?_⟩
      intro c hc
      exact hacc c (List.mem_reverse.mp hc)
  | cons c rest ih =>
    intro acc hacc t ht
    simp only [splitWSAux] at ht
    by_cases hws : isWS c
    · rw [if_pos hws] at ht
      by_cases h : acc = []
      · rw [if_pos h] at ht
        exact ih [] (by simp) t ht
      · rw [if_neg h] at ht
        rcases List.mem_cons.mp ht with h1 | h2
        · subst h1
          refine ⟨by simpa using h, ?_⟩
          intro c' hc'
          exact hacc c' (List.mem_reverse.mp hc')
        · exact ih [] (by simp) t h2
    · rw [if_neg hws] at ht
      refine ih (c :: acc) ?_ t ht
      intro c' hc'
      rcases List.mem_cons.mp hc' with h1 | h2
      · subst h1; simpa using hws
      · exact hacc c' h2

lemma splitWSAux_append (p : List Char) (hp : ∀ c ∈ p, isWS c = false) :
    ∀ rest acc, splitWSAux (p ++ rest) acc = splitWSAux rest (p.reverse ++ acc) := by
  induction p with
  | nil => intro rest acc; simp
  | cons c p' ih =>
    intro rest acc
    have hc : isWS c = false := hp c (List.mem_cons_self c p')
    have hp' : ∀ c' ∈ p', isWS c' = false := fun c' h => hp c' (List.mem_cons_of_mem c h)
    simp only [List.cons_append, splitWSAux, hc, if_neg Bool.false_ne_true]
    rw [show splitWSAux (p'.append rest) (c :: acc) = splitWSAux (p' ++ rest) (c :: acc) from rfl]
    rw [ih hp' rest (c :: acc)]
    simp

lemma splitWS_single (n : List Char) (hn : n ≠ []) (hwf : ∀ c ∈ n, isWS c = false) :
    splitWS n = [n] := by
  have h := splitWSAux_append n hwf [] []
  simp only [List.append_nil] at h
  unfold splitWS
  rw [h]
  simp only [splitWSAux]
  rw [if_neg (by simpa using hn)]
  simp

lemma splitWS_pair (p n : List Char) (hp : p ≠ []) (hpw : ∀ c ∈ p, isWS c = false)
    (hn : n ≠ []) (hnw : ∀ c ∈ n, isWS c = false) :
    splitWS (p ++ ' ' :: n) = [p, n] := by
  unfold splitWS
  rw [splitWSAux_append p hpw (' ' :: n) []]
  simp only [List.append_nil, splitWSAux]
  rw [if_pos (by simp [isWS])]
  rw [if_neg (by simpa using hp)]
  rw [List.reverse_reverse]
  rw [show splitWSAux n [] = splitWS n from rfl, splitWS_single n hn hnw]

end RAT

/-! ## Claim theorems: data holder, defaults, getters, state accessor -/

namespace RAT

/-- Claim C10: each BonsaiFit setter makes the matching getter return
exactly the stored value and leaves every other attribute (time, dir,
LogLike, LogLike0) unchanged. -/
theorem DS.bonsaiFit_setters_exact_frame (b : DS.BonsaiFit) (v : Float) (d : DS.TVector3) :
    ((b.SetTime v).GetTime = v ∧ (b.SetTime v).dir = b.dir ∧
      (b.SetTime v).LogLike = b.LogLike ∧ (b.SetTime v).LogLike0 = b.LogLike0) ∧
    ((b.SetDirection d).GetDirection = d ∧ (b.SetDirection d).time = b.time ∧
      (b.SetDirection d).LogLike = b.LogLike ∧ (b.SetDirection d).LogLike0 = b.LogLike0) ∧
    ((b.SetLogLike v).GetLogLike = v ∧ (b.SetLogLike v).time = b.time ∧
      (b.SetLogLike v).dir = b.dir ∧ (b.SetLogLike v).LogLike0 = b.LogLike0) ∧
    ((b.SetLogLike0 v).GetLogLike0 = v ∧ (b.SetLogLike0 v).time = b.time ∧
      (b.SetLogLike0 v).dir = b.dir ∧ (b.SetLogLike0 v).LogLike = b.LogLike) := by
  exact ⟨⟨rfl, rfl, rfl, rfl⟩, ⟨rfl, rfl, rfl, rfl⟩, ⟨rfl, rfl, rfl, rfl⟩,
    ⟨rfl, rfl, rfl, rfl⟩⟩

/-- Claim C7: the generator's default configuration has depth 400 and
threshold 10, and the no-argument calls of `SetDepth` and `SetEnThreshold`
restore these defaults (`DDEFAULT = 400`, `EDEFAULT = 10`). -/
theorem default_depth_and_threshold (st : GenState) :
    DDEFAULT = 400 ∧ EDEFAULT = 10 ∧
    initGen.valueD = 400 ∧ initGen.valueE = 10 ∧
    (SetDepthDefault st).valueD = 400 ∧ (SetEnThresholdDefault st).valueE = 10 := by
  exact ⟨rfl, rfl, rfl, rfl, rfl, rfl⟩

/-- Claim C9: `GetDepth` and `GetEnThreshold` return the most recently set
depth (`valueD`) and threshold (`valueE`), and a getter call leaves the
generator state — in particular the spectrum table — untouched: no
mutation, no rebuild. -/
theorem getters_return_last_set_and_do_not_mutate (st : GenState) (a e : ℚ) :
    GetDepth (SetDepth st a) = a ∧
    GetEnThreshold (SetEnThreshold st e) = e ∧
    GetDepth (SetEnThreshold st e) = GetDepth st ∧
    GetEnThreshold (SetDepth st a) = GetEnThreshold st ∧
    getDepthCall st = (GetDepth st, st) ∧
    getEnThresholdCall st = (GetEnThreshold st, st) := by
  exact ⟨rfl, rfl, rfl, rfl, rfl, rfl⟩

/-- Claim C4: sampling is deterministic — the result of `sample` is a
function of the table contents and the draw alone, so equal tables and
equal draws give identical results, and two runs over the same seeded
stream of draws produce identical output. -/
theorem sample_deterministic (t₁ t₂ : SpectrumTable) (u₁ u₂ : ℚ)
    (ht : t₁.entries = t₂.entries) (hu : u₁ = u₂) :
    sample t₁ u₁ = sample t₂ u₂ ∧
    ∀ draws : List ℚ, runSamples t₁ draws = runSamples t₂ draws := by
  have hts : t₁ = t₂ := by cases t₁; cases t₂; simpa using ht
  subst hts; subst hu
  exact ⟨rfl, fun _ => rfl⟩

/-- Witness for C4 at a concrete table and draw. -/
theorem sample_deterministic_witness :
    sample ⟨[(10, 1/2), (20, 1), (30, 1)]⟩ (1/4) = sample ⟨[(10, 1/2), (20, 1), (30, 1)]⟩ (1/4) ∧
    ∀ draws : List ℚ,
      runSamples ⟨[(10, 1/2), (20, 1), (30, 1)]⟩ draws =
        runSamples ⟨[(10, 1/2), (20, 1), (30, 1)]⟩ draws :=
  sample_deterministic ⟨[(10, 1/2), (20, 1), (30, 1)]⟩ ⟨[(10, 1/2), (20, 1), (30, 1)]⟩
    (1/4) (1/4) rfl rfl

/-- Claim C6: when the state string does not split into exactly two
whitespace-separated tokens, `SetState` fails with `MalformedStateError`
and leaves the generator configuration unchanged. -/
theorem setState_malformed (known : List Char → Bool) (st : GenState) (s : List Char)
    (h : (splitWS s).length ≠ 2) :
    SetState known st s = (st, some StateError.MalformedStateError) := by
  unfold SetState
  rcases hsp : splitWS s with _ | ⟨a, _ | ⟨b, _ | ⟨c, l⟩⟩⟩
  · rfl
  · rfl
  · rw [hsp] at h; simp at h
  · rfl

/-- Witness for C6 at the spec's scenario "neutron fastneutron extra". -/
theorem setState_malformed_witness :
    (splitWS ("neutron fastneutron extra".toList)).length ≠ 2 ∧
    SetState (fun p => p = "neutron".toList) initGen ("neutron fastneutron extra".toList) =
      (initGen, some StateError.MalformedStateError) :=
  ⟨by decide, setState_malformed (fun p => p = "neutron".toList) initGen
    ("neutron fastneutron extra".toList) (by decide)⟩

/-- Claim C5: after a successful `SetState`, `GetState` is the two-token
string "particleName specName", and feeding it back to `SetState` succeeds
and changes nothing observable in subsequent `GetState` output. -/
theorem setState_getState_roundtrip (known : List Char → Bool) (st st' : GenState)
    (s : List Char) (h : SetState known st s = (st', none)) :
    GetState st' = st'.particle ++ ' ' :: st'.specName ∧
    ∃ st'', SetState known st' (GetState st') = (st'', none) ∧
      GetState st'' = GetState st' := by
  refine ⟨rfl, ?_⟩
  unfold SetState at h
  rcases hsp : splitWS s with _ | ⟨p, _ | ⟨n, _ | ⟨c, l⟩⟩⟩ <;> rw [hsp] at h
  · simp at h
  · simp at h
  · by_cases hk : known p
    · simp only [hk, if_true] at h
      have hst' : st' = { st with particle := p, specName := n, table := none } := by
        have := congrArg Prod.fst h
        simpa using this.symm
      have hpm : p ∈ splitWS s := by rw [hsp]; exact List.mem_cons_self _ _
      have hnm : n ∈ splitWS s := by
        rw [hsp]; exact List.mem_cons_of_mem _ (List.mem_cons_self _ _)
      have hp := splitWSAux_token_sound s [] (by simp) p hpm
      have hn := splitWSAux_token_sound s [] (by simp) n hnm
      have hget : GetState st' = p ++ ' ' :: n := by rw [hst']; rfl
      have hsplit : splitWS (GetState st') = [p, n] := by
        rw [hget]; exact splitWS_pair p n hp.1 hp.2 hn.1 hn.2
      refine ⟨{ st' with particle := p, specName := n, table := none }, ?_, ?_⟩
      · unfold SetState
        rw [hsplit]
        simp only [hk, if_true]
      · rw [hst']
    · simp [hk] at h
  · simp at h

/-- Witness for C5 at the spec's scenario "positron fastneutron". -/
theorem setState_getState_roundtrip_witness :
    GetState positronGen = positronGen.particle ++ ' ' :: positronGen.specName ∧
    ∃ st'', SetState (fun p => p = "positron".toList) positronGen (GetState positronGen) =
        (st'', none) ∧
      GetState st'' = GetState positronGen :=
  setState_getState_roundtrip (fun p => p = "positron".toList) initGen positronGen
    ("positron fastneutron".toList) (by decide)

/-- Claim C8: the emitted vertex's position and time are the caller-supplied
offsets `dx` and `dt` verbatim — the synthesizer applies no additional
spatial or temporal spreading. -/
theorem vertex_position_time_verbatim (mom : ℚ → Vec3 → Vec3) (t : SpectrumTable)
    (u : ℚ) (dx : Vec3) (dt : ℚ) (v : Vertex)
    (h : generatePrimaryVertex mom t u dx dt = some v) :
    v.pos = dx ∧ v.time = dt := by
  unfold generatePrimaryVertex at h
  rcases hs : sample t u with _ | ⟨e, i⟩ <;> rw [hs] at h
  · simp at h
  · have hv : v = synthesize mom e referenceDirection dx dt := by
      simpa using h.symm
    rw [hv]
    exact ⟨rfl, rfl⟩

/-- Witness for C8 at a concrete table, draw and offsets. -/
theorem vertex_position_time_verbatim_witness :
    (generatePrimaryVertex (fun _ _ => ⟨0, 0, 0⟩) ⟨[(10, 1/2), (20, 1)]⟩ 0 ⟨1, 2, 3⟩ 5 =
      some { pos := ⟨1, 2, 3⟩, time := 5, momentum := ⟨0, 0, 0⟩ }) ∧
    ({ pos := ⟨1, 2, 3⟩, time := 5, momentum := ⟨0, 0, 0⟩ } : Vertex).pos = ⟨1, 2, 3⟩ ∧
    ({ pos := ⟨1, 2, 3⟩, time := 5, momentum := ⟨0, 0, 0⟩ } : Vertex).time = 5 :=
  ⟨by norm_num [generatePrimaryVertex, sample, findBin, synthesize],
    vertex_position_time_verbatim (fun _ _ => ⟨0, 0, 0⟩) ⟨[(10, 1/2), (20, 1)]⟩
      0 ⟨1, 2, 3⟩ 5 { pos := ⟨1, 2, 3⟩, time := 5, momentum := ⟨0, 0, 0⟩ }
      (by norm_num [generatePrimaryVertex, sample, findBin, synthesize])⟩

end RAT

/-! ## Builder lemmas -/

namespace RAT

lemma binMasses_fst (l : List SpecBin) :
    (binMasses l).map Prod.fst = l.map SpecBin.energy := by
  induction l with
  | nil => rfl
  | cons b rest ih =>
    cases rest with
    | nil => rfl
    | cons b2 r2 => simpa [binMasses] using ih

lemma binMasses_eq_nil (l : List SpecBin) (h : l = []) : binMasses l = [] := by
  subst h; rfl

lemma binMasses_ne_nil (l : List SpecBin) (h : l ≠ []) : binMasses l ≠ [] := by
  cases l with
  | nil => exact absurd rfl h
  | cons b rest => cases rest <;> simp [binMasses]

lemma cumList_fst (l : List (ℚ × ℚ)) : ∀ acc, (cumList acc l).map Prod.fst = l.map Prod.fst := by
  induction l with
  | nil => intro acc; rfl
  | cons p rest ih =>
    intro acc
    obtain ⟨e, m⟩ := p
    simp [cumList, ih]

lemma cumList_length (l : List (ℚ × ℚ)) : ∀ acc, (cumList acc l).length = l.length := by
  induction l with
  | nil => intro acc; rfl
  | cons p rest ih =>
    intro acc
    obtain ⟨e, m⟩ := p
    simp [cumList, ih]

lemma cumList_getLast (l : List (ℚ × ℚ)) (hl : l ≠ []) :
    ∀ acc, ∃ e, (cumList acc l).getLast? = some (e, acc + (l.map Prod.snd).sum) := by
  induction l with
  | nil => exact absurd rfl hl
  | cons p rest ih =>
    intro acc
    obtain ⟨e, m⟩ := p
    cases rest with
    | nil => exact ⟨e, by simp [cumList]⟩
    | cons q r2 =>
      obtain ⟨e2, m2⟩ := q
      obtain ⟨e', hlast⟩ := ih (by simp) (acc + m)
      refine ⟨e', ?_⟩
      rw [show cumList acc ((e, m) :: (e2, m2) :: r2) =
            (e, acc + m) :: (e2, acc + m + m2) :: cumList (acc + m + m2) r2 from rfl]
      rw [List.getLast?_cons_cons]
      rw [show (e2, acc + m + m2) :: cumList (acc + m + m2) r2 =
            cumList (acc + m) ((e2, m2) :: r2) from rfl]
      rw [hlast]
      simp [add_assoc]

lemma cumList_chain (l : List (ℚ × ℚ)) :
    (∀ m ∈ l, 0 ≤ m.2) → ∀ acc, List.Chain' (· ≤ ·) ((cumList acc l).map Prod.snd) := by
  induction l with
  | nil => intro _ acc; simp [cumList]
  | cons p rest ih =>
    intro h acc
    obtain ⟨e, m⟩ := p
    cases rest with
    | nil => simp [cumList]
    | cons q r2 =>
      obtain ⟨e2, m2⟩ := q
      have h2 : ∀ x ∈ (e2, m2) :: r2, 0 ≤ x.2 :=
        fun x hx => h x (List.mem_cons_of_mem _ hx)
      have hm2 : (0 : ℚ) ≤ m2 := h2 (e2, m2) (List.mem_cons_self _ _)
      have htail := ih h2 (acc + m)
      rw [show cumList acc ((e, m) :: (e2, m2) :: r2) =
            (e, acc + m) :: cumList (acc + m) ((e2, m2) :: r2) from rfl]
      rw [show cumList (acc + m) ((e2, m2) :: r2) =
            (e2, acc + m + m2) :: cumList (acc + m + m2) r2 from rfl] at htail ⊢
      simp only [List.map_cons] at htail ⊢
      refine List.chain'_cons.mpr ⟨?_, htail⟩
      show acc + m ≤ acc + m + m2
      linarith

lemma binMasses_nonneg (l : List SpecBin) :
    List.Chain' (fun a b => a.energy ≤ b.energy) l → (∀ b ∈ l, 0 ≤ b.flux) →
    ∀ m ∈ binMasses l, 0 ≤ m.2 := by
  induction l with
  | nil => intro _ _ m hm; simp [binMasses] at hm
  | cons b rest ih =>
    intro hc hf m hm
    cases rest with
    | nil =>
      simp only [binMasses, List.mem_singleton] at hm
      subst hm; exact le_refl 0
    | cons b2 r2 =>
      simp only [binMasses, List.mem_cons] at hm
      rcases hm with rfl | hm2
      · have h12 : b.energy ≤ b2.energy := (List.chain'_cons.mp hc).1
        have hfb : 0 ≤ b.flux := hf b (List.mem_cons_self _ _)
        exact mul_nonneg hfb (by linarith)
      · exact ih (List.chain'_cons.mp hc).2
          (fun x hx => hf x (List.mem_cons_of_mem _ hx)) m hm2

lemma binMasses_sum_zero_of_const_energy (l : List SpecBin) (θ : ℚ) :
    (∀ b ∈ l, b.energy = θ) → ((binMasses l).map Prod.snd).sum = 0 := by
  induction l with
  | nil => intro _; rfl
  | cons b rest ih =>
    intro h
    cases rest with
    | nil => simp [binMasses]
    | cons b2 r2 =>
      have hb : b.energy = θ := h b (List.mem_cons_self _ _)
      have hb2 : b2.energy = θ := h b2 (List.mem_cons_of_mem _ (List.mem_cons_self _ _))
      have hrest := ih (fun x hx => h x (List.mem_cons_of_mem _ hx))
      simp only [binMasses, List.map_cons, List.sum_cons, hb, hb2, sub_self, mul_zero,
        zero_add]
      exact hrest

lemma mem_le_foldr_max (l : List ℚ) (a i : ℚ) (h : a ∈ l) : a ≤ l.foldr max i := by
  induction l with
  | nil => cases h
  | cons x xs ih =>
    rcases List.mem_cons.mp h with rfl | h2
    · exact le_max_left _ _
    · exact le_trans (ih h2) (le_max_right _ _)

lemma energy_le_maxEnergy (bins : List SpecBin) (b : SpecBin) (h : b ∈ bins) :
    b.energy ≤ maxEnergy bins :=
  mem_le_foldr_max _ _ _ (List.mem_map_of_mem _ h)

lemma mem_attenuate (a : ℚ) (bins : List SpecBin) (b : SpecBin) (h : b ∈ attenuate a bins) :
    ∃ b0 ∈ bins, b.energy = b0.energy ∧ b.flux = a * b0.flux := by
  simp only [attenuate, List.mem_map] at h
  obtain ⟨b0, hb0, hb⟩ := h
  exact ⟨b0, hb0, by rw [← hb], by rw [← hb]⟩

lemma mem_truncateBelow (θ : ℚ) (bins : List SpecBin) (b : SpecBin)
    (h : b ∈ truncateBelow θ bins) : b ∈ bins ∧ θ ≤ b.energy := by
  have := List.mem_filter.mp h
  exact ⟨this.1, by simpa using this.2⟩

lemma findBin_some_of_exists (l : List (ℚ × ℚ)) (u : ℚ) :
    (∃ p ∈ l, u < p.2) → ∀ i, ∃ e j, findBin l u i = some (e, j) := by
  induction l with
  | nil => rintro ⟨p, hp, _⟩; cases hp
  | cons q rest ih =>
    rintro ⟨p, hp, hu⟩ i
    obtain ⟨e, c⟩ := q
    by_cases hc : u < c
    · exact ⟨e, i, by simp [findBin, hc]⟩
    · rcases List.mem_cons.mp hp with rfl | hp2
      · exact absurd hu hc
      · obtain ⟨e', j, hj⟩ := ih ⟨p, hp2, hu⟩ (i + 1)
        exact ⟨e', j, by simp [findBin, hc, hj]⟩

lemma findBin_mem_fst (l : List (ℚ × ℚ)) (u : ℚ) :
    ∀ i e j, findBin l u i = some (e, j) → e ∈ l.map Prod.fst := by
  induction l with
  | nil => intro i e j h; simp [findBin] at h
  | cons q rest ih =>
    intro i e j h
    obtain ⟨e0, c0⟩ := q
    by_cases hc : u < c0
    · simp only [findBin, if_pos hc, Option.some.injEq, Prod.mk.injEq] at h
      simp [← h.1]
    · simp only [findBin, if_neg hc] at h
      exact List.mem_cons_of_mem _ (ih (i + 1) e j h)

lemma getLast_mem (l : List (ℚ × ℚ)) (p : ℚ × ℚ) (h : l.getLast? = some p) : p ∈ l := by
  induction l with
  | nil => simp at h
  | cons q rest ih =>
    cases rest with
    | nil =>
      simp only [List.getLast?_singleton, Option.some.injEq] at h
      simp [h]
    | cons q2 r2 =>
      rw [List.getLast?_cons_cons] at h
      exact List.mem_cons_of_mem _ (ih h)

/-- The structure of a successful build: the table is the normalized
cumulative list over the build masses, and the total is nonzero. -/
lemma build_ok_structure (depth threshold : ℚ) (atten : ℚ → ℚ) (base : List SpecBin)
    (T : SpectrumTable) (hb : build depth threshold atten base = .ok T) :
    T.entries = (cumList 0 (buildMasses depth threshold atten base)).map
      (fun p => (p.1, p.2 / buildTotal depth threshold atten base)) ∧
    buildTotal depth threshold atten base ≠ 0 := by
  unfold build at hb
  by_cases h1 : depth < 0 ∨ threshold < 0
  · rw [if_pos h1] at hb; cases hb
  · rw [if_neg h1] at hb
    by_cases h2 : buildTotal depth threshold atten base = 0
    · rw [if_pos h2] at hb; cases hb
    · rw [if_neg h2] at hb
      refine ⟨?_, h2⟩
      cases hb
      rfl

lemma map_fst_norm (l : List (ℚ × ℚ)) (t : ℚ) :
    (l.map (fun p => (p.1, p.2 / t))).map Prod.fst = l.map Prod.fst := by
  induction l with
  | nil => rfl
  | cons p rest ih => simp [ih]

lemma getLast_map_norm (l : List (ℚ × ℚ)) (t : ℚ) :
    (l.map (fun p => (p.1, p.2 / t))).getLast? =
      l.getLast?.map (fun p => (p.1, p.2 / t)) := by
  induction l with
  | nil => rfl
  | cons p rest ih =>
    cases rest with
    | nil => rfl
    | cons q r2 =>
      rw [List.map_cons, List.map_cons, List.getLast?_cons_cons, List.getLast?_cons_cons]
      exact ih

lemma buildMasses_ne_nil_of_total (depth threshold : ℚ) (atten : ℚ → ℚ)
    (base : List SpecBin) (htot : buildTotal depth threshold atten base ≠ 0) :
    buildMasses depth threshold atten base ≠ [] := by
  intro h
  apply htot
  show ((buildMasses depth threshold atten base).map Prod.snd).sum = 0
  rw [h]
  rfl

/-- The last cumulative entry of a successfully built table is exactly 1. -/
lemma build_ok_last_one (depth threshold : ℚ) (atten : ℚ → ℚ) (base : List SpecBin)
    (T : SpectrumTable) (hb : build depth threshold atten base = .ok T) :
    ∃ e, T.entries.getLast? = some (e, 1) := by
  obtain ⟨hT, htot⟩ := build_ok_structure depth threshold atten base T hb
  have hMne := buildMasses_ne_nil_of_total depth threshold atten base htot
  obtain ⟨e, hlast⟩ := cumList_getLast (buildMasses depth threshold atten base) hMne 0
  refine ⟨e, ?_⟩
  rw [hT, getLast_map_norm, hlast]
  show some (e, (0 + ((buildMasses depth threshold atten base).map Prod.snd).sum) /
      buildTotal depth threshold atten base) = some (e, 1)
  rw [zero_add]
  rw [show ((buildMasses depth threshold atten base).map Prod.snd).sum /
        buildTotal depth threshold atten base =
      buildTotal depth threshold atten base / buildTotal depth threshold atten base from rfl]
  rw [div_self htot]

/-- The energies appearing in a successfully built table are exactly the
energies of the attenuated, truncated base bins. -/
lemma build_ok_energies (depth threshold : ℚ) (atten : ℚ → ℚ) (base : List SpecBin)
    (T : SpectrumTable) (hb : build depth threshold atten base = .ok T) :
    T.entries.map Prod.fst =
      (truncateBelow threshold (attenuate (atten depth) base)).map SpecBin.energy := by
  obtain ⟨hT, _⟩ := build_ok_structure depth threshold atten base T hb
  rw [hT, map_fst_norm, cumList_fst]
  unfold buildMasses
  rw [binMasses_fst]

/-- Claim C1: for every successfully built spectrum table and every uniform
draw u in [0,1), `sample` returns an energy between the configured
threshold and the maximum tabulated energy. -/
theorem sample_energy_in_range (depth threshold : ℚ) (atten : ℚ → ℚ) (base : List SpecBin)
    (T : SpectrumTable) (u : ℚ) (hb : build depth threshold atten base = .ok T)
    (_hu0 : 0 ≤ u) (hu1 : u < 1) :
    ∃ e i, sample T u = some (e, i) ∧ threshold ≤ e ∧ e ≤ maxEnergy base := by
  obtain ⟨e1, hlast⟩ := build_ok_last_one depth threshold atten base T hb
  have hmem : ((e1, 1) : ℚ × ℚ) ∈ T.entries := getLast_mem _ _ hlast
  obtain ⟨e, j, hs⟩ :=
    findBin_some_of_exists T.entries u ⟨(e1, 1), hmem, hu1⟩ 0
  refine ⟨e, j, hs, ?_, ?_⟩
  all_goals
    have hefst := findBin_mem_fst T.entries u 0 e j hs
    rw [build_ok_energies depth threshold atten base T hb] at hefst
    obtain ⟨b, hbmem, hbe⟩ := List.mem_map.mp hefst
    obtain ⟨hmem2, hθ⟩ := mem_truncateBelow _ _ _ hbmem
  · rw [← hbe]; exact hθ
  · obtain ⟨b0, hb0, he0, _⟩ := mem_attenuate _ _ _ hmem2
    rw [← hbe, he0]
    exact energy_le_maxEnergy base b0 hb0

/-- Witness for C1: the table built at depth 400, threshold 10 over the
concrete base table, sampled at u = 1/4. -/
theorem sample_energy_in_range_witness :
    build 400 10 attenOne baseTable = .ok tableA ∧ (0 : ℚ) ≤ 1/4 ∧ (1/4 : ℚ) < 1 ∧
    ∃ e i, sample tableA (1/4) = some (e, i) ∧ 10 ≤ e ∧ e ≤ maxEnergy baseTable := by
  have hb : build 400 10 attenOne baseTable = .ok tableA := by
    norm_num [build, buildMasses, buildTotal, truncateBelow, attenuate, binMasses,
      cumList, tableA, baseTable, attenOne]
  exact ⟨hb, by norm_num, by norm_num,
    sample_energy_in_range 400 10 attenOne baseTable tableA (1/4) hb
      (by norm_num) (by norm_num)⟩

/-- Claim C2: every successfully built table over a valid base spectrum
(sorted energies, nonnegative flux, nonnegative attenuation) is non-empty,
its cumulative values are non-decreasing, and its final cumulative value
equals 1 within tolerance 1e-9. -/
theorem build_table_invariants (depth threshold : ℚ) (atten : ℚ → ℚ) (base : List SpecBin)
    (T : SpectrumTable)
    (hflux : ∀ b ∈ base, 0 ≤ b.flux) (hatt : 0 ≤ atten depth)
    (hsort : base.Pairwise (fun a b => a.energy ≤ b.energy))
    (hb : build depth threshold atten base = .ok T) :
    T.entries ≠ [] ∧ List.Chain' (· ≤ ·) (T.entries.map Prod.snd) ∧
    ∃ p : ℚ × ℚ, T.entries.getLast? = some p ∧ |p.2 - 1| ≤ 1 / 1000000000 := by
  obtain ⟨hT, htot⟩ := build_ok_structure depth threshold atten base T hb
  have hMne := buildMasses_ne_nil_of_total depth threshold atten base htot
  refine ⟨?_, ?_, ?_⟩
  · rw [hT]
    intro h
    have hlen := congrArg List.length h
    rw [List.length_map, cumList_length] at hlen
    exact hMne (List.length_eq_zero.mp hlen)
  · -- nonnegativity of the masses
    have hattn : ∀ b ∈ attenuate (atten depth) base, 0 ≤ b.flux := by
      intro b hb'
      obtain ⟨b0, hb0, _, hfl⟩ := mem_attenuate _ _ _ hb'
      rw [hfl]
      exact mul_nonneg hatt (hflux b0 hb0)
    have htr : ∀ b ∈ truncateBelow threshold (attenuate (atten depth) base), 0 ≤ b.flux :=
      fun b hb' => hattn b (mem_truncateBelow _ _ _ hb').1
    have hsort2 : (attenuate (atten depth) base).Pairwise
        (fun a b => a.energy ≤ b.energy) := by
      unfold attenuate
      rw [List.pairwise_map]
      exact hsort
    have hsort3 : (truncateBelow threshold (attenuate (atten depth) base)).Pairwise
        (fun a b => a.energy ≤ b.energy) :=
      hsort2.sublist (List.filter_sublist _)
    have hmass : ∀ m ∈ buildMasses depth threshold atten base, 0 ≤ m.2 :=
      binMasses_nonneg _ hsort3.chain' htr
    -- total is positive
    have htnn : 0 ≤ buildTotal depth threshold atten base :=
      List.sum_nonneg (by
        intro x hx
        obtain ⟨m, hm, hmx⟩ := List.mem_map.mp hx
        rw [← hmx]
        exact hmass m hm)
    have htpos : 0 < buildTotal depth threshold atten base :=
      lt_of_le_of_ne htnn (Ne.symm htot)
    -- the normalized cumulative values inherit the chain
    have hch := cumList_chain (buildMasses depth threshold atten base) hmass 0
    have hch2 : List.Chain' (· ≤ ·)
        (((cumList 0 (buildMasses depth threshold atten base)).map Prod.snd).map
          (fun x => x / buildTotal depth threshold atten base)) :=
      List.chain'_map_of_chain' _ (fun a b hab => div_le_div_of_nonneg_right hab htnn) hch
    rw [hT, List.map_map]
    rw [List.map_map] at hch2
    exact hch2
  · obtain ⟨e, hlast⟩ := build_ok_last_one depth threshold atten base T hb
    exact ⟨(e, 1), hlast, by norm_num⟩

/-- Witness for C2 at the concrete base table, depth 400, threshold 10. -/
theorem build_table_invariants_witness :
    (∀ b ∈ baseTable, 0 ≤ b.flux) ∧ (0 : ℚ) ≤ attenOne 400 ∧
    baseTable.Pairwise (fun a b => a.energy ≤ b.energy) ∧
    build 400 10 attenOne baseTable = .ok tableA ∧
    (tableA.entries ≠ [] ∧ List.Chain' (· ≤ ·) (tableA.entries.map Prod.snd) ∧
      ∃ p : ℚ × ℚ, tableA.entries.getLast? = some p ∧ |p.2 - 1| ≤ 1 / 1000000000) := by
  have hb : build 400 10 attenOne baseTable = .ok tableA := by
    norm_num [build, buildMasses, buildTotal, truncateBelow, attenuate, binMasses,
      cumList, tableA, baseTable, attenOne]
  exact ⟨by decide, by decide, by decide, hb,
    build_table_invariants 400 10 attenOne baseTable tableA (by decide) (by decide)
      (by decide) hb⟩

/-- Claim C3: whenever the attenuated, threshold-truncated spectrum has
zero total density — in particular whenever the threshold equals or exceeds
the maximum tabulated energy — a build with valid parameters fails with
`EmptySpectrumError`, never producing a degenerate table. -/
theorem build_fails_empty_spectrum (depth threshold : ℚ) (atten : ℚ → ℚ)
    (base : List SpecBin) (hd : ¬ depth < 0) (ht : ¬ threshold < 0)
    (hzero : buildTotal depth threshold atten base = 0 ∨ maxEnergy base ≤ threshold) :
    build depth threshold atten base = .error .EmptySpectrumError := by
  have htot : buildTotal depth threshold atten base = 0 := by
    rcases hzero with h | h
    · exact h
    · show ((binMasses (truncateBelow threshold (attenuate (atten depth) base))).map
        Prod.snd).sum = 0
      apply binMasses_sum_zero_of_const_energy _ threshold
      intro b hbm
      obtain ⟨hmem, hθ⟩ := mem_truncateBelow _ _ _ hbm
      obtain ⟨b0, hb0, he, _⟩ := mem_attenuate _ _ _ hmem
      have hle : b.energy ≤ maxEnergy base := he ▸ energy_le_maxEnergy base b0 hb0
      linarith
  unfold build
  rw [if_neg (not_or.mpr ⟨hd, ht⟩), if_pos htot]

/-- Witness for C3 at the boundary threshold = maximum tabulated energy. -/
theorem build_fails_empty_spectrum_witness :
    ¬ (400 : ℚ) < 0 ∧ ¬ (30 : ℚ) < 0 ∧
    (buildTotal 400 30 attenOne baseTable = 0 ∨ maxEnergy baseTable ≤ 30) ∧
    build 400 30 attenOne baseTable = .error .EmptySpectrumError :=
  ⟨by norm_num, by norm_num, Or.inr (by decide),
    build_fails_empty_spectrum 400 30 attenOne baseTable (by norm_num) (by norm_num)
      (Or.inr (by decide))⟩

end RAT
